import Mathlib

set_option maxRecDepth 10000

/-!
Shallow embedding of the Streamlit Iris exploration app (src/app.py) and
proofs of the frozen specification claims.

The script is linear: it loads the Iris table, shows describe-style summary
statistics, draws a histogram of a selected numeric column with 20 bins, a
scatter plot of two selected numeric columns coloured per species, and a
detail table filtered to one selected species.  Pure fragments of the script
(column selection, binning, grouping, filtering, defaults) are embedded as
Lean functions below; the widget layer and the bundled dataset resource are
modelled from the spec where the repository sources do not contain them.
-/

/-- One row of the Iris table: four numeric measurements plus the
`Species` label column added by `load_data` (src/app.py line 31). -/
structure Record where
  sepalLength : ℚ
  sepalWidth : ℚ
  petalLength : ℚ
  petalWidth : ℚ
  species : String
deriving DecidableEq

/-- The four numeric column names of the Iris table, in DataFrame order
(`iris.feature_names`, src/app.py lines 27-30). -/
def feature_names : List String :=
  ["sepal length (cm)", "sepal width (cm)", "petal length (cm)", "petal width (cm)"]

/-- Full column order of the loaded DataFrame: the four measurement
columns followed by the `Species` column (src/app.py lines 27-31). -/
def dataset_columns : List String := feature_names ++ ["Species"]

/-- `numeric_columns` of src/app.py line 61: `select_dtypes(include=[np.number])`
keeps exactly the four measurement columns, in column order. -/
def numeric_columns : List String := feature_names

/-- The category set, in `iris.target_names` order (src/app.py line 31). -/
def target_names : List String := ["setosa", "versicolor", "virginica"]

/-- Modelled from the spec: the bundled dataset resource read by `load_data`
(src/app.py lines 23-32, via `sklearn.datasets.load_iris`) is not part of the
repository sources.  Per the spec it is a fixed table of 150 rows, 4 positive
numeric measurement fields and one 3-valued category label with 50 rows per
category, in `target_names` order with `setosa` first.  The individual
measurement values are not fixed by the spec; the representative values below
stay in the documented positive centimeter ranges, and every theorem that
touches measurements holds for arbitrary values. -/
def mkRecord (i : ℕ) : Record :=
  { sepalLength := 4 + ((i % 40 : ℕ) : ℚ) / 10
  , sepalWidth := 2 + ((i % 25 : ℕ) : ℚ) / 10
  , petalLength := 1 + ((i % 60 : ℕ) : ℚ) / 10
  , petalWidth := (1 + ((i % 25 : ℕ) : ℚ)) / 10
  , species := target_names.getD (i / 50) "setosa" }

/-- Modelled from the spec: the loaded dataset (`iris_data` of src/app.py
line 36), an ordered sequence of 150 records, 50 per category. -/
def iris_data : List Record := (List.range 150).map mkRecord

/-- Column access `df[field]` on a record, for the four numeric columns. -/
def fieldValue (field : String) (r : Record) : ℚ :=
  if field = "sepal length (cm)" then r.sepalLength
  else if field = "sepal width (cm)" then r.sepalWidth
  else if field = "petal length (cm)" then r.petalLength
  else r.petalWidth

/-- Column access `df[field]`: the values of one numeric column, in row
order. -/
def column (ds : List Record) (field : String) : List ℚ := ds.map (fieldValue field)

/-- Minimum of a list of rationals (0 on the empty list, which the spec
rules out as a precondition violation). -/
def listMin : List ℚ → ℚ
  | [] => 0
  | x :: xs => xs.foldl min x

/-- Maximum of a list of rationals (0 on the empty list). -/
def listMax : List ℚ → ℚ
  | [] => 0
  | x :: xs => xs.foldl max x

/-- The histogram chart spec: bounds, bin count and per-bin counts
(ChartSpec of spec section 3). -/
structure HistSpec where
  lo : ℚ
  hi : ℚ
  binCount : ℕ
  counts : List ℕ
deriving DecidableEq

/-- Which equal-width bin a value falls in, matplotlib/numpy semantics:
bins are half-open except the last, which also contains the upper bound. -/
def binIndex (lo hi : ℚ) (n : ℕ) (v : ℚ) : ℕ :=
  if v = hi then n - 1
  else (⌊(v - lo) * n / (hi - lo)⌋).toNat

/-- `ax_hist.hist(values, bins=binCount)` (src/app.py line 94): `binCount`
equal-width bins spanning the minimum and maximum of `values`, counting how
many values fall in each bin. -/
def buildHistogram (values : List ℚ) (binCount : ℕ) : HistSpec :=
  let lo := listMin values
  let hi := listMax values
  { lo := lo
  , hi := hi
  , binCount := binCount
  , counts := (List.range binCount).map
      (fun i => values.countP (fun v => decide (binIndex lo hi binCount v = i))) }

/-- The bin boundaries of a histogram spec: `binCount + 1` equally spaced
edges from `lo` to `hi`. -/
def binEdges (h : HistSpec) : List ℚ :=
  (List.range (h.binCount + 1)).map (fun (i : ℕ) => h.lo + (i : ℚ) * (h.hi - h.lo) / (h.binCount : ℚ))

/-- The histogram the app draws for a selected column: the whole (unfiltered)
column of `iris_data` with the fixed `bins=20` (src/app.py line 94). -/
def app_histogram (field : String) : HistSpec :=
  buildHistogram (column iris_data field) 20

/-- `pd.unique` semantics of `iris_data["Species"].unique()` (src/app.py
lines 107 and 128): the distinct values of a column, in order of first
appearance. -/
def uniqueInOrder : List String → List String
  | [] => []
  | x :: xs => x :: uniqueInOrder (xs.filter (fun y => decide (y ≠ x)))
termination_by l => l.length
decreasing_by
  simp only [List.length_cons]
  exact Nat.lt_succ_of_le (List.length_filter_le _ _)

/-- The fixed per-species color table (src/app.py line 106). -/
def species_colors : List (String × String) :=
  [("setosa", "red"), ("versicolor", "green"), ("virginica", "blue")]

/-- `species_colors.get(species, "gray")` (src/app.py line 113): the fixed
color of a known species, gray for anything else. -/
def colorOf (s : String) : String :=
  match species_colors.lookup s with
  | some c => c
  | none => "gray"

/-- The scatter chart spec: axis columns and one
(category, points, color) group per distinct species. -/
structure ScatterSpec where
  xField : String
  yField : String
  groups : List (String × List (ℚ × ℚ) × String)
deriving DecidableEq

/-- The scatter loop of src/app.py lines 107-116: for each distinct species
(in first-appearance order), the (x, y) pairs of the rows of that species,
in row order, with the color from `species_colors` (gray fallback). -/
def buildScatter (ds : List Record) (xField yField : String) : ScatterSpec :=
  { xField := xField
  , yField := yField
  , groups := (uniqueInOrder (ds.map Record.species)).map (fun sp =>
      let sub := ds.filter (fun r => decide (r.species = sp))
      (sp, sub.map (fun r => (fieldValue xField r, fieldValue yField r)), colorOf sp)) }

/-- `iris_data[iris_data["Species"] == species_selected]` (src/app.py
line 130): the rows of one species, in row order. -/
def filterByCategory (ds : List Record) (cat : String) : List Record :=
  ds.filter (fun r => decide (r.species = cat))

/-- Arithmetic mean of a list of rationals. -/
def listMean (values : List ℚ) : ℚ := values.sum / (values.length : ℚ)

/-- Sample variance (Bessel-corrected, divisor `n - 1`): the square of the
sample standard deviation that `describe()` reports. -/
def sampleVar (values : List ℚ) : ℚ :=
  (values.map (fun v => (v - listMean values) ^ 2)).sum / ((values.length : ℚ) - 1)

/-- Linear interpolation into a sorted list at fractional rank `h`: the
entry at position `⌊h⌋`, moved a fraction `h - ⌊h⌋` of the way towards the
next entry when one exists. -/
def interpAt (s : List ℚ) (h : ℚ) : ℚ :=
  match s[(⌊h⌋).toNat]?, s[(⌊h⌋).toNat + 1]? with
  | some a, some b => a + (h - ((⌊h⌋).toNat : ℚ)) * (b - a)
  | some a, none => a
  | none, _ => 0

/-- Percentile with the linear interpolation method of `describe()`: on the
ascending sorted values, the interpolated value at fractional rank
`q * (n - 1)` where `n` is the number of values. -/
def percentile (values : List ℚ) (q : ℚ) : ℚ :=
  interpAt (values.mergeSort (fun a b => decide (a ≤ b)))
    (q * ((values.length : ℚ) - 1))

/-- The 8 describe statistics of one numeric column (`StatisticsSummary`
entry of spec section 3); `varSample` is the square of the reported sample
standard deviation, kept in ℚ. -/
structure FieldStats where
  count : ℕ
  mean : ℚ
  varSample : ℚ
  min : ℚ
  q25 : ℚ
  q50 : ℚ
  q75 : ℚ
  max : ℚ
deriving DecidableEq

/-- `iris_data.describe()` (src/app.py line 55) for one numeric column:
count, mean, sample standard deviation (represented by its square), min,
the three quartiles with linear interpolation, max. -/
def summarize (ds : List Record) (field : String) : FieldStats :=
  let vs := column ds field
  { count := vs.length
  , mean := listMean vs
  , varSample := sampleVar vs
  , min := listMin vs
  , q25 := percentile vs (1 / 4)
  , q50 := percentile vs (1 / 2)
  , q75 := percentile vs (3 / 4)
  , max := listMax vs }

/-- The options offered by the species selectbox (src/app.py lines 126-129):
the distinct species of the dataset, in first-appearance order. -/
def speciesOptions (ds : List Record) : List String :=
  uniqueInOrder (ds.map Record.species)

/-- The four user selections (`SelectionState` of spec section 3). -/
structure SelectionState where
  histField : String
  xField : String
  yField : String
  speciesFilter : String
deriving DecidableEq

/-- Which selection a widget updates. -/
inductive SelField where
  | hist
  | x
  | y
  | species
deriving DecidableEq

/-- The option domain each selectbox offers (src/app.py lines 67-85 pass
`numeric_columns`; lines 126-129 pass the distinct species). -/
def domainOf : SelField → List String
  | SelField.hist => numeric_columns
  | SelField.x => numeric_columns
  | SelField.y => numeric_columns
  | SelField.species => speciesOptions iris_data

/-- Modelled from the spec: the selection-update boundary is the selectbox
widget layer of the UI framework, not repository code; per the spec,
`update(field, value)` rejects a value outside the domain of the field and
applies no partial update, otherwise it replaces just that field. -/
def SelectionState.update (st : SelectionState) (f : SelField) (v : String) :
    Except String SelectionState :=
  if v ∈ domainOf f then
    Except.ok
      (match f with
        | SelField.hist => { st with histField := v }
        | SelField.x => { st with xField := v }
        | SelField.y => { st with yField := v }
        | SelField.species => { st with speciesFilter := v })
  else Except.error "invalid selection"

/-- Default index of the Y-axis selectbox (src/app.py line 83):
`index=1 if len(numeric_columns) > 1 else 0`. -/
def defaultYIndex (cols : List String) : ℕ :=
  if cols.length > 1 then 1 else 0

/-- Modelled from the spec: a selectbox with no explicit `index` argument
defaults to the first option; the Y-axis box passes `defaultYIndex`
(src/app.py lines 67-85, 126-129).  The initial SelectionState is therefore
the first numeric column for histogram and X, the `defaultYIndex` numeric
column for Y, and the first offered species. -/
def defaultSelection : SelectionState :=
  { histField := numeric_columns.getD 0 ""
  , xField := numeric_columns.getD 0 ""
  , yField := numeric_columns.getD (defaultYIndex numeric_columns) ""
  , speciesFilter := (speciesOptions iris_data).getD 0 "" }

/-- The derived artifacts of one render pass. -/
structure PageArtifacts where
  hist : HistSpec
  scatter : ScatterSpec
  detail : List Record
deriving DecidableEq

/-- One render pass of the script (src/app.py lines 91-132): histogram of
the selected column over the whole dataset with 20 bins, scatter of the
selected X/Y columns over the whole dataset, and the species detail table. -/
def renderPage (ds : List Record) (sel : SelectionState) : PageArtifacts :=
  { hist := buildHistogram (column ds sel.histField) 20
  , scatter := buildScatter ds sel.xField sel.yField
  , detail := filterByCategory ds sel.speciesFilter }

/-! ## Basic facts about minimum, maximum and bin counting -/

theorem foldl_min_le_init (l : List ℚ) (a : ℚ) : l.foldl min a ≤ a := by
  induction l generalizing a with
  | nil => exact le_refl a
  | cons x xs ih => exact le_trans (ih (min a x)) (min_le_left a x)

theorem foldl_min_le_mem (l : List ℚ) (a v : ℚ) (hv : v ∈ l) : l.foldl min a ≤ v := by
  induction l generalizing a with
  | nil => cases hv
  | cons x xs ih =>
    rcases List.mem_cons.mp hv with h | h
    · subst h
      exact le_trans (foldl_min_le_init xs (min a v)) (min_le_right a v)
    · exact ih (min a x) h

theorem listMin_le (values : List ℚ) (v : ℚ) (hv : v ∈ values) : listMin values ≤ v := by
  cases values with
  | nil => cases hv
  | cons x xs =>
    rcases List.mem_cons.mp hv with h | h
    · subst h
      exact foldl_min_le_init xs v
    · exact foldl_min_le_mem xs x v h

theorem init_le_foldl_max (l : List ℚ) (a : ℚ) : a ≤ l.foldl max a := by
  induction l generalizing a with
  | nil => exact le_refl a
  | cons x xs ih => exact le_trans (le_max_left a x) (ih (max a x))

theorem mem_le_foldl_max (l : List ℚ) (a v : ℚ) (hv : v ∈ l) : v ≤ l.foldl max a := by
  induction l generalizing a with
  | nil => cases hv
  | cons x xs ih =>
    rcases List.mem_cons.mp hv with h | h
    · subst h
      exact le_trans (le_max_right a v) (init_le_foldl_max xs (max a v))
    · exact ih (max a x) h

theorem le_listMax (values : List ℚ) (v : ℚ) (hv : v ∈ values) : v ≤ listMax values := by
  cases values with
  | nil => cases hv
  | cons x xs =>
    rcases List.mem_cons.mp hv with h | h
    · subst h
      exact init_le_foldl_max xs v
    · exact mem_le_foldl_max xs x v h

theorem sum_map_add {β : Type} (keys : List β) (f g : β → ℕ) :
    (keys.map (fun k => f k + g k)).sum = (keys.map f).sum + (keys.map g).sum := by
  induction keys with
  | nil => rfl
  | cons k ks ih =>
    simp only [List.map_cons, List.sum_cons, ih]
    omega

theorem sum_indicator_not_mem {β : Type} [DecidableEq β] (keys : List β) (k0 : β)
    (h : k0 ∉ keys) : (keys.map (fun k => if k0 = k then 1 else 0)).sum = 0 := by
  induction keys with
  | nil => rfl
  | cons k ks ih =>
    simp only [List.mem_cons, not_or] at h
    simp only [List.map_cons, List.sum_cons, if_neg h.1, ih h.2]

theorem sum_indicator_mem {β : Type} [DecidableEq β] (keys : List β) (k0 : β)
    (hnd : keys.Nodup) (h : k0 ∈ keys) :
    (keys.map (fun k => if k0 = k then 1 else 0)).sum = 1 := by
  induction keys with
  | nil => cases h
  | cons k ks ih =>
    rcases List.nodup_cons.mp hnd with ⟨hk, hks⟩
    rcases List.mem_cons.mp h with h1 | h1
    · subst h1
      rw [List.map_cons, List.sum_cons, if_pos rfl, sum_indicator_not_mem ks k0 hk]
    · have hne : k0 ≠ k := by
        intro he
        exact hk (he ▸ h1)
      simp only [List.map_cons, List.sum_cons, if_neg hne, ih hks h1]

theorem countP_partition {α β : Type} [DecidableEq β] (l : List α) (f : α → β)
    (keys : List β) (hnd : keys.Nodup) (hcov : ∀ v ∈ l, f v ∈ keys) :
    (keys.map (fun k => l.countP (fun v => decide (f v = k)))).sum = l.length := by
  induction l with
  | nil =>
    simp [List.countP_nil]
  | cons x l ih =>
    have hx : f x ∈ keys := hcov x (List.mem_cons_self x l)
    have hrest : ∀ v ∈ l, f v ∈ keys := fun v hv => hcov v (List.mem_cons_of_mem x hv)
    simp only [List.countP_cons, decide_eq_true_eq]
    rw [sum_map_add keys (fun k => l.countP (fun v => decide (f v = k)))
      (fun k => if f x = k then 1 else 0)]
    rw [ih hrest, sum_indicator_mem keys (f x) hnd hx, List.length_cons]

theorem binIndex_lt (lo hi v : ℚ) (n : ℕ) (hn : 1 ≤ n) (hlo : lo ≤ v) (hhi : v ≤ hi) :
    binIndex lo hi n v < n := by
  unfold binIndex
  split
  · omega
  · rename_i hne
    have hvh : v < hi := lt_of_le_of_ne hhi hne
    have hw : (0 : ℚ) < hi - lo := by linarith
    have hn0 : 0 < n := hn
    have hnp : (0 : ℚ) < (n : ℚ) := by exact_mod_cast hn0
    have h1 : (v - lo) * (n : ℚ) / (hi - lo) < (n : ℚ) := by
      rw [div_lt_iff₀ hw]
      have h2 : v - lo < hi - lo := by linarith
      calc (v - lo) * (n : ℚ) < (hi - lo) * (n : ℚ) := by
            exact mul_lt_mul_of_pos_right h2 hnp
        _ = (n : ℚ) * (hi - lo) := mul_comm _ _
    have h3 : ⌊(v - lo) * (n : ℚ) / (hi - lo)⌋ < (n : ℤ) := by
      apply Int.floor_lt.mpr
      push_cast
      exact h1
    omega

theorem buildHistogram_counts_sum (values : List ℚ) (n : ℕ) (hn : 1 ≤ n) :
    (buildHistogram values n).counts.sum = values.length := by
  simp only [buildHistogram]
  exact countP_partition values (fun v => binIndex (listMin values) (listMax values) n v)
    (List.range n) (List.nodup_range n)
    (fun v hv => List.mem_range.mpr
      (binIndex_lt _ _ v n hn (listMin_le values v hv) (le_listMax values v hv)))

theorem binEdges_head (h : HistSpec) : (binEdges h).head? = some h.lo := by
  unfold binEdges
  rw [List.range_succ_eq_map, List.map_cons]
  simp

theorem binEdges_getLast (h : HistSpec) (hn : 1 ≤ h.binCount) :
    (binEdges h).getLast? = some h.hi := by
  unfold binEdges
  rw [List.range_succ, List.map_append, List.map_cons, List.map_nil, List.getLast?_concat]
  have hne : ((h.binCount : ℚ)) ≠ 0 := by
    have : 0 < h.binCount := hn
    exact_mod_cast Nat.pos_iff_ne_zero.mp this
  rw [Option.some_inj]
  field_simp

theorem binEdges_getD (h : HistSpec) (i : ℕ) (hi : i < h.binCount + 1) :
    (binEdges h).getD i 0 = h.lo + (i : ℚ) * (h.hi - h.lo) / (h.binCount : ℚ) := by
  unfold binEdges
  rw [List.getD_eq_getElem?_getD, List.getElem?_map, List.getElem?_range hi]
  rfl

/-! ## C1: histogram bins -/

/-- C1: for every numeric field of the dataset, the histogram builder
partitions the field values into 20 equal-width bins spanning the minimum
and maximum of that field over the whole (unfiltered) dataset, and the
per-bin counts sum exactly to the row count of the dataset; the sum property
holds for any field and any bin count of at least 1. -/
theorem histogram_bins_spec (field : String) (n : ℕ)
    (hf : field ∈ numeric_columns) (hn : 1 ≤ n) :
    (buildHistogram (column iris_data field) n).counts.sum = iris_data.length
    ∧ (app_histogram field).binCount = 20
    ∧ (app_histogram field).lo = listMin (column iris_data field)
    ∧ (app_histogram field).hi = listMax (column iris_data field)
    ∧ (binEdges (app_histogram field)).length = 21
    ∧ (binEdges (app_histogram field)).head? = some ((app_histogram field).lo)
    ∧ (binEdges (app_histogram field)).getLast? = some ((app_histogram field).hi)
    ∧ (∀ i : ℕ, i < 20 →
        (binEdges (app_histogram field)).getD (i + 1) 0
            - (binEdges (app_histogram field)).getD i 0
          = ((app_histogram field).hi - (app_histogram field).lo) / 20) := by
  have hbc : (app_histogram field).binCount = 20 := by
    simp [app_histogram, buildHistogram]
  refine ⟨?_, hbc, ?_, ?_, ?_, ?_, ?_, ?_⟩
  · rw [buildHistogram_counts_sum (column iris_data field) n hn]
    simp [column]
  · simp [app_histogram, buildHistogram]
  · simp [app_histogram, buildHistogram]
  · simp [binEdges, hbc]
  · rw [binEdges_head]
  · exact binEdges_getLast (app_histogram field) (by rw [hbc]; omega)
  · intro i hi
    rw [binEdges_getD _ (i + 1) (by rw [hbc]; omega), binEdges_getD _ i (by rw [hbc]; omega), hbc]
    push_cast
    ring

/-- Witness for C1 at the first numeric column and bin count 20. -/
theorem histogram_bins_spec_witness :
    (buildHistogram (column iris_data "sepal length (cm)") 20).counts.sum = iris_data.length :=
  (histogram_bins_spec "sepal length (cm)" 20 (by decide) (by decide)).1

/-! ## Facts about uniqueInOrder (pd.unique semantics) -/

theorem mem_uniqueInOrder (l : List String) (a : String) :
    a ∈ uniqueInOrder l ↔ a ∈ l := by
  induction l using uniqueInOrder.induct with
  | case1 => simp [uniqueInOrder]
  | case2 x xs ih =>
    rw [uniqueInOrder]
    simp only [List.mem_cons, ih, List.mem_filter, decide_eq_true_eq]
    by_cases hax : a = x
    · subst hax
      tauto
    · tauto

theorem uniqueInOrder_nodup (l : List String) : (uniqueInOrder l).Nodup := by
  induction l using uniqueInOrder.induct with
  | case1 => simp [uniqueInOrder]
  | case2 x xs ih =>
    rw [uniqueInOrder]
    refine List.nodup_cons.mpr ⟨?_, ih⟩
    intro hx
    have hmem := (mem_uniqueInOrder _ x).mp hx
    simp [List.mem_filter] at hmem

theorem uniqueInOrder_sublist (l : List String) : List.Sublist (uniqueInOrder l) l := by
  induction l using uniqueInOrder.induct with
  | case1 =>
    rw [uniqueInOrder]
  | case2 x xs ih =>
    rw [uniqueInOrder]
    exact List.Sublist.cons₂ x (ih.trans (List.filter_sublist xs))

theorem uniqueInOrder_head (l : List String) : (uniqueInOrder l).head? = l.head? := by
  cases l with
  | nil => rw [uniqueInOrder]
  | cons x xs =>
    rw [uniqueInOrder]
    rfl

theorem buildScatter_fst (ds : List Record) (xf yf : String) :
    (buildScatter ds xf yf).groups.map Prod.fst = uniqueInOrder (ds.map Record.species) := by
  simp only [buildScatter, List.map_map]
  exact List.map_id _

theorem buildScatter_total (ds : List Record) (xf yf : String) :
    ((buildScatter ds xf yf).groups.map (fun g => g.2.1.length)).sum = ds.length := by
  have hpart := countP_partition ds Record.species (uniqueInOrder (ds.map Record.species))
    (uniqueInOrder_nodup _)
    (fun r hr => (mem_uniqueInOrder _ _).mpr (List.mem_map_of_mem Record.species hr))
  rw [← hpart]
  simp only [buildScatter, List.map_map]
  congr 1
  apply List.map_congr_left
  intro sp _
  simp [← List.countP_eq_length_filter]

theorem buildScatter_points_sublist (ds : List Record) (xf yf : String) :
    ∀ g ∈ (buildScatter ds xf yf).groups,
      List.Sublist g.2.1 (ds.map (fun r => (fieldValue xf r, fieldValue yf r))) := by
  intro g hg
  simp only [buildScatter, List.mem_map] at hg
  obtain ⟨sp, hsp, rfl⟩ := hg
  exact List.Sublist.map _ (List.filter_sublist ds)

/-! ## C2: scatter point-sets -/

/-- C2: for every pair of numeric fields chosen as X and Y, the scatter
builder produces exactly one point-set per distinct category value (no
category appears twice), the total number of points across all point-sets
equals the row count of the dataset, and each point-set appears as a
subsequence of the full dataset mapped to (x, y) pairs, i.e. in dataset row
order. -/
theorem scatter_groups_spec (xf yf : String)
    (hx : xf ∈ numeric_columns) (hy : yf ∈ numeric_columns) :
    ((buildScatter iris_data xf yf).groups.map Prod.fst).Nodup
    ∧ ((buildScatter iris_data xf yf).groups.map (fun g => g.2.1.length)).sum
        = iris_data.length
    ∧ (∀ g ∈ (buildScatter iris_data xf yf).groups,
        List.Sublist g.2.1 (iris_data.map (fun r => (fieldValue xf r, fieldValue yf r)))) := by
  refine ⟨?_, buildScatter_total iris_data xf yf, buildScatter_points_sublist iris_data xf yf⟩
  rw [buildScatter_fst]
  exact uniqueInOrder_nodup _

/-- Witness for C2 at the first two numeric columns. -/
theorem scatter_groups_spec_witness :
    ((buildScatter iris_data "sepal length (cm)" "sepal width (cm)").groups.map
        (fun g => g.2.1.length)).sum = iris_data.length :=
  (scatter_groups_spec "sepal length (cm)" "sepal width (cm)" (by decide) (by decide)).2.1

/-! ## Bounds on linear-interpolation percentiles -/

theorem interpAt_bounds (s : List ℚ) (h lo hi : ℚ)
    (hmem : ∀ a ∈ s, lo ≤ a ∧ a ≤ hi)
    (hsorted : s.Pairwise (fun a b : ℚ => a ≤ b))
    (h0 : 0 ≤ h) (hlt : (⌊h⌋).toNat < s.length) :
    lo ≤ interpAt s h ∧ interpAt s h ≤ hi := by
  have hfl : (((⌊h⌋).toNat : ℤ)) = ⌊h⌋ := Int.toNat_of_nonneg (Int.floor_nonneg.mpr h0)
  have hflq : (((⌊h⌋).toNat : ℚ)) = ((⌊h⌋ : ℤ) : ℚ) := by exact_mod_cast congrArg Int.cast hfl
  have hfrac0 : 0 ≤ h - (((⌊h⌋).toNat : ℚ)) := by
    rw [hflq]
    have := Int.floor_le h
    linarith
  have hfrac1 : h - (((⌊h⌋).toNat : ℚ)) ≤ 1 := by
    rw [hflq]
    have := Int.lt_floor_add_one h
    linarith
  unfold interpAt
  split
  · rename_i a b ha hb
    obtain ⟨hia, rfl⟩ := List.getElem?_eq_some_iff.mp ha
    obtain ⟨hib, rfl⟩ := List.getElem?_eq_some_iff.mp hb
    have hab : s[(⌊h⌋).toNat] ≤ s[(⌊h⌋).toNat + 1] :=
      List.pairwise_iff_getElem.mp hsorted _ _ hia hib (Nat.lt_succ_self _)
    obtain ⟨hloa, hahi⟩ := hmem _ (List.getElem_mem hia)
    obtain ⟨hlob, hbhi⟩ := hmem _ (List.getElem_mem hib)
    have hm0 : 0 ≤ (h - (((⌊h⌋).toNat : ℚ))) * (s[(⌊h⌋).toNat + 1] - s[(⌊h⌋).toNat]) :=
      mul_nonneg hfrac0 (by linarith)
    have hm1 : (h - (((⌊h⌋).toNat : ℚ))) * (s[(⌊h⌋).toNat + 1] - s[(⌊h⌋).toNat])
        ≤ s[(⌊h⌋).toNat + 1] - s[(⌊h⌋).toNat] :=
      mul_le_of_le_one_left (by linarith) hfrac1
    constructor <;> linarith
  · rename_i a ha _
    obtain ⟨hia, rfl⟩ := List.getElem?_eq_some_iff.mp ha
    exact hmem _ (List.getElem_mem hia)
  · rename_i x hnone
    exact absurd (List.getElem?_eq_none_iff.mp hnone) (by omega)

theorem mergeSort_le_sorted (values : List ℚ) :
    (values.mergeSort (fun a b => decide (a ≤ b))).Pairwise (fun a b : ℚ => a ≤ b) := by
  have hp := @List.sorted_mergeSort ℚ (fun a b : ℚ => decide (a ≤ b))
    (fun a b c hab hbc => by
      simp only [decide_eq_true_eq] at *
      exact le_trans hab hbc)
    (fun a b => by
      simp only [Bool.or_eq_true, decide_eq_true_eq]
      exact le_total a b)
    values
  exact hp.imp (fun hab => by simpa using hab)

theorem percentile_bounds (values : List ℚ) (q : ℚ)
    (hne : values ≠ []) (h0 : 0 ≤ q) (h1 : q ≤ 1) :
    listMin values ≤ percentile values q ∧ percentile values q ≤ listMax values := by
  have hnpos : 0 < values.length := List.length_pos.mpr hne
  have hone : (1 : ℚ) ≤ (values.length : ℚ) := by exact_mod_cast hnpos
  unfold percentile
  apply interpAt_bounds
  · intro a ha
    have hav : a ∈ values := List.mem_mergeSort.mp ha
    exact ⟨listMin_le values a hav, le_listMax values a hav⟩
  · exact mergeSort_le_sorted values
  · exact mul_nonneg h0 (by linarith)
  · have hle : q * ((values.length : ℚ) - 1) ≤ (values.length : ℚ) - 1 :=
      mul_le_of_le_one_left (by linarith) h1
    have hfloor : ⌊q * ((values.length : ℚ) - 1)⌋ ≤ ⌊(values.length : ℚ) - 1⌋ :=
      Int.floor_le_floor hle
    have hfi : ⌊(values.length : ℚ) - 1⌋ = (values.length : ℤ) - 1 := by
      rw [show ((values.length : ℚ) - 1) = ((values.length : ℚ) - ((1 : ℤ) : ℚ)) by norm_num,
        Int.floor_sub_int, Int.floor_natCast]
    rw [List.length_mergeSort]
    omega

/-! ## C3: describe summary statistics -/

/-- C3: for every numeric field of the dataset, the statistics summary has
count equal to the total row count (150), its minimum is at most each of
the three quartiles and each quartile is at most its maximum (quartiles by
linear interpolation), and the reported variance is the sample variance:
the squared deviations from the mean divided by `count - 1`. -/
theorem describe_stats_spec (field : String) (hf : field ∈ numeric_columns) :
    (summarize iris_data field).count = iris_data.length
    ∧ (summarize iris_data field).count = 150
    ∧ (summarize iris_data field).min ≤ (summarize iris_data field).q25
    ∧ (summarize iris_data field).min ≤ (summarize iris_data field).q50
    ∧ (summarize iris_data field).min ≤ (summarize iris_data field).q75
    ∧ (summarize iris_data field).q25 ≤ (summarize iris_data field).max
    ∧ (summarize iris_data field).q50 ≤ (summarize iris_data field).max
    ∧ (summarize iris_data field).q75 ≤ (summarize iris_data field).max
    ∧ (summarize iris_data field).varSample * (((summarize iris_data field).count : ℚ) - 1)
        = ((column iris_data field).map
            (fun v => (v - (summarize iris_data field).mean) ^ 2)).sum := by
  have hlen : (column iris_data field).length = 150 := by
    simp [column, iris_data]
  have hne : column iris_data field ≠ [] := by
    intro h
    rw [h] at hlen
    simp at hlen
  have hb25 := percentile_bounds (column iris_data field) (1 / 4) hne (by norm_num) (by norm_num)
  have hb50 := percentile_bounds (column iris_data field) (1 / 2) hne (by norm_num) (by norm_num)
  have hb75 := percentile_bounds (column iris_data field) (3 / 4) hne (by norm_num) (by norm_num)
  refine ⟨?_, ?_, hb25.1, hb50.1, hb75.1, hb25.2, hb50.2, hb75.2, ?_⟩
  · simp [summarize, column]
  · simp [summarize, hlen]
  · simp only [summarize, sampleVar]
    apply div_mul_cancel₀
    rw [hlen]
    norm_num

/-- Witness for C3 at the third numeric column. -/
theorem describe_stats_spec_witness :
    (summarize iris_data "petal length (cm)").count = iris_data.length :=
  (describe_stats_spec "petal length (cm)" (by decide)).1

/-! ## C4: filtering by category -/

/-- C4: filtering the dataset by a category value returns the ordered
sub-sequence (a sublist in row order) of exactly those records whose
category field equals the given value; on the 150-row dataset, filtering by
setosa returns exactly 50 records, all with species setosa. -/
theorem filter_by_category_spec (ds : List Record) (cat : String) :
    List.Sublist (filterByCategory ds cat) ds
    ∧ (∀ r ∈ filterByCategory ds cat, r.species = cat)
    ∧ (∀ r ∈ ds, r.species = cat → r ∈ filterByCategory ds cat)
    ∧ (filterByCategory ds cat).length = ds.countP (fun r => decide (r.species = cat))
    ∧ (filterByCategory iris_data "setosa").length = 50
    ∧ (filterByCategory iris_data "setosa").all
        (fun r => decide (r.species = "setosa")) = true := by
  refine ⟨List.filter_sublist ds, ?_, ?_, ?_, by decide, by decide⟩
  · intro r hr
    have := (List.mem_filter.mp hr).2
    simpa using this
  · intro r hr hcat
    exact List.mem_filter.mpr ⟨hr, by simpa using hcat⟩
  · exact (List.countP_eq_length_filter _ _).symm

/-! ## C5: rejection of invalid selections -/

/-- C5: updating the selection state with a value outside the valid domain
of the targeted field is rejected: the update signals a domain-validation
failure and yields no new state at all (no partial update), so the prior
valid state stays in force. -/
theorem selection_update_invalid (st : SelectionState) (f : SelField) (v : String)
    (hv : v ∉ domainOf f) :
    st.update f v = Except.error "invalid selection"
    ∧ (∀ st2 : SelectionState, st.update f v ≠ Except.ok st2) := by
  have herr : st.update f v = Except.error "invalid selection" := by
    unfold SelectionState.update
    rw [if_neg hv]
  refine ⟨herr, ?_⟩
  intro st2 hok
  rw [herr] at hok
  exact Except.noConfusion hok

/-- Witness for C5: the categorical column name is not a numeric column. -/
theorem selection_update_invalid_witness :
    defaultSelection.update SelField.hist "Species" = Except.error "invalid selection" :=
  (selection_update_invalid defaultSelection SelField.hist "Species" (by decide)).1

/-! ## C6: the dataset invariant -/

/-- C6: the loaded dataset has exactly 150 records, its schema is the four
numeric measurement columns followed by the categorical column in a fixed
stable order, and the species of every record belongs to the fixed
3-element category set. -/
theorem dataset_invariant_spec :
    iris_data.length = 150
    ∧ dataset_columns = ["sepal length (cm)", "sepal width (cm)", "petal length (cm)",
        "petal width (cm)", "Species"]
    ∧ numeric_columns.length = 4
    ∧ target_names.length = 3
    ∧ iris_data.all (fun r => decide (r.species ∈ target_names)) = true :=
  ⟨by decide, by decide, by decide, by decide, by decide⟩

/-! ## C7: scatter colors and the gray fallback -/

/-- C7: the scatter builder colors the three known categories with the
fixed colors red, green and blue, colors any unrecognized category gray,
every group it emits carries exactly the color of its category, and under
the dataset invariant every species of the dataset is a known category, so
the gray fallback is unreachable on the dataset. -/
theorem scatter_colors_spec (s : String) (hs : s ∉ target_names) :
    colorOf "setosa" = "red"
    ∧ colorOf "versicolor" = "green"
    ∧ colorOf "virginica" = "blue"
    ∧ colorOf s = "gray"
    ∧ (∀ (ds : List Record) (xf yf : String),
        ∀ g ∈ (buildScatter ds xf yf).groups, g.2.2 = colorOf g.1)
    ∧ iris_data.all (fun r => decide (r.species ∈ target_names)) = true := by
  refine ⟨by decide, by decide, by decide, ?_, ?_, by decide⟩
  · simp only [target_names, List.mem_cons, List.not_mem_nil, or_false, not_or] at hs
    have b1 : (s == "setosa") = false := beq_eq_false_iff_ne.mpr hs.1
    have b2 : (s == "versicolor") = false := beq_eq_false_iff_ne.mpr hs.2.1
    have b3 : (s == "virginica") = false := beq_eq_false_iff_ne.mpr hs.2.2
    simp [colorOf, species_colors, List.lookup, b1, b2, b3]
  · intro ds xf yf g hg
    simp only [buildScatter, List.mem_map] at hg
    obtain ⟨sp, hsp, rfl⟩ := hg
    rfl

/-- Witness for C7 at a category name outside the category set. -/
theorem scatter_colors_spec_witness : colorOf "unknown" = "gray" :=
  (scatter_colors_spec "unknown" (by decide)).2.2.2.1

/-! ## C8: the species filter never reaches the charts -/

/-- C8: two render passes over the same dataset whose selections agree on
the histogram column and the scatter X/Y columns produce identical
histogram and scatter specs, whatever their species-detail selections are:
the species filter only affects the standalone detail table. -/
theorem charts_independent_of_species (ds : List Record) (s1 s2 : SelectionState)
    (hh : s1.histField = s2.histField) (hx : s1.xField = s2.xField)
    (hy : s1.yField = s2.yField) :
    (renderPage ds s1).hist = (renderPage ds s2).hist
    ∧ (renderPage ds s1).scatter = (renderPage ds s2).scatter := by
  constructor
  · simp [renderPage, hh]
  · simp [renderPage, hx, hy]

/-- Witness for C8: the default selection against the same selection with a
different species filter. -/
theorem charts_independent_of_species_witness :
    (renderPage iris_data defaultSelection).hist
      = (renderPage iris_data
          { defaultSelection with speciesFilter := "virginica" }).hist :=
  (charts_independent_of_species iris_data defaultSelection
    { defaultSelection with speciesFilter := "virginica" } rfl rfl rfl).1

/-! ## First-occurrence order -/

theorem indexOf_lt_of_filter_indexOf_lt (p : String → Bool) :
    ∀ (l : List String) (a b : String), a ∈ l.filter p → b ∈ l.filter p →
      (l.filter p).indexOf a < (l.filter p).indexOf b → l.indexOf a < l.indexOf b := by
  intro l
  induction l with
  | nil =>
    intro a b ha _ _
    simp only [List.filter_nil] at ha
    cases ha
  | cons y ys ih =>
    intro a b ha hb hlt
    by_cases hp : p y
    · rw [List.filter_cons_of_pos hp] at ha hb hlt
      by_cases hby : b = y
      · subst hby
        rw [List.indexOf_cons_self] at hlt
        omega
      · by_cases hay : a = y
        · subst hay
          rw [List.indexOf_cons_self, List.indexOf_cons_ne ys (Ne.symm hby)]
          exact Nat.succ_pos _
        · have haf : a ∈ ys.filter p := by
            rcases List.mem_cons.mp ha with h | h
            · exact absurd h hay
            · exact h
          have hbf : b ∈ ys.filter p := by
            rcases List.mem_cons.mp hb with h | h
            · exact absurd h hby
            · exact h
          rw [List.indexOf_cons_ne _ (Ne.symm hay), List.indexOf_cons_ne _ (Ne.symm hby)] at hlt
          have hys := ih a b haf hbf (by omega)
          rw [List.indexOf_cons_ne ys (Ne.symm hay), List.indexOf_cons_ne ys (Ne.symm hby)]
          omega
    · rw [List.filter_cons_of_neg hp] at ha hb hlt
      have hay : a ≠ y := by
        intro he
        exact hp (he ▸ List.of_mem_filter ha)
      have hby : b ≠ y := by
        intro he
        exact hp (he ▸ List.of_mem_filter hb)
      have hys := ih a b ha hb hlt
      rw [List.indexOf_cons_ne ys (Ne.symm hay), List.indexOf_cons_ne ys (Ne.symm hby)]
      omega

theorem uniqueInOrder_pairwise_indexOf (l : List String) :
    (uniqueInOrder l).Pairwise (fun a b => l.indexOf a < l.indexOf b) := by
  induction l using uniqueInOrder.induct with
  | case1 =>
    rw [uniqueInOrder]
    exact List.Pairwise.nil
  | case2 x xs ih =>
    rw [uniqueInOrder]
    refine List.pairwise_cons.mpr ⟨?_, ?_⟩
    · intro b hb
      have hbf : b ∈ xs.filter (fun y => decide (y ≠ x)) := (mem_uniqueInOrder _ b).mp hb
      have hbx : b ≠ x := by simpa using List.of_mem_filter hbf
      rw [List.indexOf_cons_self, List.indexOf_cons_ne xs (Ne.symm hbx)]
      exact Nat.succ_pos _
    · refine List.Pairwise.imp_of_mem ?_ ih
      intro a b ha hb hlt
      have haf : a ∈ xs.filter (fun y => decide (y ≠ x)) := (mem_uniqueInOrder _ a).mp ha
      have hbf : b ∈ xs.filter (fun y => decide (y ≠ x)) := (mem_uniqueInOrder _ b).mp hb
      have hax : a ≠ x := by simpa using List.of_mem_filter haf
      have hbx : b ≠ x := by simpa using List.of_mem_filter hbf
      have hxs : xs.indexOf a < xs.indexOf b :=
        indexOf_lt_of_filter_indexOf_lt _ xs a b haf hbf hlt
      rw [List.indexOf_cons_ne xs (Ne.symm hax), List.indexOf_cons_ne xs (Ne.symm hbx)]
      omega

theorem speciesOptions_head : (speciesOptions iris_data).head? = some "setosa" := by
  rw [speciesOptions, uniqueInOrder_head]
  decide

theorem speciesOptions_getD : (speciesOptions iris_data).getD 0 "" = "setosa" := by
  rw [List.getD_eq_getElem?_getD, ← List.head?_eq_getElem?, speciesOptions_head]
  rfl

/-! ## C9: default selections -/

/-- C9: the default selections are the first numeric column for the
histogram and the scatter X-axis, the second numeric column for the
Y-axis — or the first when only one numeric column exists — and the first
offered category value for the species filter. -/
theorem default_selection_spec (cols : List String) (hone : cols.length = 1) :
    defaultSelection.histField = "sepal length (cm)"
    ∧ defaultSelection.xField = "sepal length (cm)"
    ∧ defaultSelection.yField = "sepal width (cm)"
    ∧ numeric_columns.getD 0 "" = "sepal length (cm)"
    ∧ numeric_columns.getD 1 "" = "sepal width (cm)"
    ∧ defaultYIndex numeric_columns = 1
    ∧ defaultYIndex cols = 0
    ∧ defaultSelection.speciesFilter = "setosa"
    ∧ (speciesOptions iris_data).head? = some "setosa" := by
  refine ⟨by decide, by decide, by decide, by decide, by decide, by decide, ?_, ?_,
    speciesOptions_head⟩
  · simp [defaultYIndex, hone]
  · exact speciesOptions_getD

/-- Witness for C9 with a one-column schema for the Y-axis fallback. -/
theorem default_selection_spec_witness : defaultYIndex ["a"] = 0 :=
  (default_selection_spec ["a"] (by decide)).2.2.2.2.2.2.1

/-! ## C10: first-occurrence order of categories -/

/-- C10: the scatter groups are generated one per category in the order of
each category's first occurrence in the dataset (the category list is
strictly increasing in first-occurrence index), the species-detail selector
offers exactly that same list, and its first entry — the default — is the
category of the first record of the dataset. -/
theorem scatter_selector_first_occurrence (ds : List Record) (xf yf : String) :
    (buildScatter ds xf yf).groups.map Prod.fst = speciesOptions ds
    ∧ (speciesOptions ds).Pairwise
        (fun a b => (ds.map Record.species).indexOf a < (ds.map Record.species).indexOf b)
    ∧ (speciesOptions ds).head? = (ds.map Record.species).head?
    ∧ (speciesOptions iris_data).getD 0 "" = "setosa"
    ∧ defaultSelection.speciesFilter = "setosa" :=
  ⟨buildScatter_fst ds xf yf,
   uniqueInOrder_pairwise_indexOf (ds.map Record.species),
   uniqueInOrder_head (ds.map Record.species),
   speciesOptions_getD,
   speciesOptions_getD⟩
